import Mathlib

/-!
Shallow embedding of faunadb/objects.py: the Ref, Set, Event and Page
value types and the Set.iterator pagination loop. Python strings are
modelled as lists of characters; Python dictionaries with a fixed key
set are modelled as structures with Option fields (an absent key is
none). Fallible construction returns Except.
-/

namespace FaunaDB

/-- Python str.split with a one-character separator: splits on every
occurrence, keeping empty chunks, and yields a single chunk for a
string with no separator, including the empty string. -/
def pySplit (sep : Char) : List Char → List (List Char)
  | [] => [[]]
  | c :: cs =>
    if c = sep then [] :: pySplit sep cs
    else (c :: (pySplit sep cs).headD []) :: (pySplit sep cs).tail

/-- The Python join method of a separator string: concatenates the
chunks with the separator between consecutive chunks. -/
def pyJoin (sep : Char) : List (List Char) → List Char
  | [] => []
  | [x] => x
  | x :: y :: ys => x ++ sep :: pyJoin sep (y :: ys)

/-- Bool test: the second list starts with the first. -/
def listStartsWith : List Char → List Char → Bool
  | [], _ => true
  | _ :: _, [] => false
  | p :: ps, c :: cs => p == c && listStartsWith ps cs

/-- Bool test: the first list occurs as a contiguous run inside the
second. -/
def occursIn (pat : List Char) : List Char → Bool
  | [] => pat.isEmpty
  | c :: cs => listStartsWith pat (c :: cs) || occursIn pat cs

/-- faunadb.objects.Ref: a wrapper around a slash-delimited path
string, extracted through the value field. Equality is structural, by
value, as in the source __eq__. -/
structure Ref where
  value : List Char
deriving DecidableEq

/-- Ref.__init__: with no instance id the value is the class name
verbatim; with an instance id the value is the class name, a slash,
and the id. A Ref passed as the class name enters through its string
form, Ref.str. -/
def Ref.init (class_name : List Char) (instance_id : Option (List Char)) : Ref :=
  match instance_id with
  | none => ⟨class_name⟩
  | some i => ⟨class_name ++ '/' :: i⟩

/-- Ref.__str__ returns the underlying value. -/
def Ref.str (r : Ref) : List Char := r.value

/-- Ref.to_class: split the value on the slashes, drop the last chunk,
rejoin with slashes, wrap as a Ref. -/
def Ref.to_class (r : Ref) : Ref :=
  ⟨pyJoin '/' ((pySplit '/' r.value).dropLast)⟩

/-- Ref.id: the last chunk of the value split on the slashes. The
split is never empty, so the default never fires. -/
def Ref.id (r : Ref) : List Char :=
  (pySplit '/' r.value).getLastD []

/-- Python exception values raised by this module: InvalidQuery from
faunadb.errors carrying its message, and KeyError carrying the missing
key of a dictionary access. -/
inductive PyErr where
  | invalidQuery (msg : List Char)
  | keyError (key : List Char)
deriving DecidableEq

/-- The fixed message of the InvalidQuery raised by Event.__init__. -/
def invalidActionMsg : List Char :=
  "Action must be create or delete or None.".toList

/-- The tuple (None, "create", "delete") the action is tested against. -/
def validActions : List (Option (List Char)) :=
  [none, some "create".toList, some "delete".toList]

/-- faunadb.objects.Event: a timestamp, an optional action string and
an optional resource. Fields left as Python None are none. -/
structure Event (τ ρ : Type) where
  ts : Option τ
  action : Option (List Char)
  resource : Option ρ
deriving DecidableEq

/-- Event.__init__: stores ts, then checks the action against the
tuple (None, "create", "delete"); outside it, raises InvalidQuery with
the fixed message; otherwise stores action and resource unchanged. -/
def Event.init {τ ρ : Type} (ts : Option τ) (action : Option (List Char))
    (resource : Option ρ) : Except PyErr (Event τ ρ) :=
  if action ∈ validActions then Except.ok ⟨ts, action, resource⟩
  else Except.error (PyErr.invalidQuery invalidActionMsg)

/-- The dictionary a serialized Event may populate: keys ts, action
and resource, each either absent (none) or present. -/
structure EventJson (τ ρ : Type) where
  ts : Option τ
  action : Option (List Char)
  resource : Option ρ
deriving DecidableEq

/-- Event.to_fauna_json: builds the dictionary of the three fields and
drops every pair whose value is None; an unset field is an absent key. -/
def Event.to_fauna_json {τ ρ : Type} (e : Event τ ρ) : EventJson τ ρ :=
  ⟨e.ts, e.action, e.resource⟩

/-- Event.from_json: reads the keys ts, action and resource with plain
indexing, raising KeyError on the first absent one, then runs the
Event constructor, which validates the action. -/
def Event.from_json {τ ρ : Type} (j : EventJson τ ρ) : Except PyErr (Event τ ρ) :=
  match j.ts with
  | none => Except.error (PyErr.keyError "ts".toList)
  | some t =>
    match j.action with
    | none => Except.error (PyErr.keyError "action".toList)
    | some a =>
      match j.resource with
      | none => Except.error (PyErr.keyError "resource".toList)
      | some r => Event.init (some t) (some a) (some r)

/-- faunadb.objects.Page: a data list and the optional before and
after cursors. -/
structure Page (κ α : Type) where
  data : List α
  before : Option κ
  after : Option κ
deriving DecidableEq

/-- The dictionary a fetched page resource may populate: required key
data, optional keys before and after. -/
structure PageJson (κ α : Type) where
  data : Option (List α)
  before : Option κ
  after : Option κ
deriving DecidableEq

/-- Page.from_json: plain indexing of the data key, raising KeyError
when it is absent, then optional lookups of before and after. -/
def Page.from_json {κ α : Type} (j : PageJson κ α) : Except PyErr (Page κ α) :=
  match j.data with
  | none => Except.error (PyErr.keyError "data".toList)
  | some d => Except.ok ⟨d, j.before, j.after⟩

/-- Page.map_data: a new Page with func applied to each data element
and the cursors carried over. -/
def Page.map_data {κ α β : Type} (p : Page κ α) (func : α → β) : Page κ β :=
  ⟨p.data.map func, p.before, p.after⟩

/-- faunadb.objects.Set: a wrapper around an uninterpreted query descriptor.
Equality is structural, by query_json, as in the source __eq__. -/
structure Set (Q : Type) where
  query_json : Q
deriving DecidableEq

/-- The cursor keyword of a paginate call: the after or the before
field. -/
inductive Direction where
  | after
  | before
deriving DecidableEq

/-- getattr(page, next_cursor): reads the cursor field the direction
names. -/
def Page.cursor {κ α : Type} (p : Page κ α) : Direction → Option κ
  | Direction.after => p.after
  | Direction.before => p.before

/-- One paginate query as the mocked executor sees it: the set
descriptor, the size keyword, and the optional cursor keyword with its
direction. The first fetch passes no cursor. -/
structure FetchCall (Q κ : Type) where
  setq : Q
  size : Option Nat
  cursor : Option (Direction × κ)
deriving DecidableEq

/-- A failure terminating a traversal: the executor raised, or the
fetched resource was missing the data key and Page.from_json raised. -/
inductive IterErr (ε : Type) where
  | execFail (e : ε)
  | pageErr (p : PyErr)
deriving DecidableEq

/-- How a traversal ended: normal termination with the cursor absent,
a propagated failure, or the mocked executor ran out of scripted
responses while a fetch was still due. -/
inductive Outcome (φ : Type) where
  | done
  | failed (e : φ)
  | scriptEnded
deriving DecidableEq

/-- get_page without the executor call: converts one executor response
into a Page via Page.from_json, propagating either failure. -/
def get_page {ε κ α : Type} (r : Except ε (PageJson κ α)) :
    Except (IterErr ε) (Page κ α) :=
  match r with
  | Except.error e => Except.error (IterErr.execFail e)
  | Except.ok j =>
    match Page.from_json j with
    | Except.error k => Except.error (IterErr.pageErr k)
    | Except.ok p => Except.ok p

/-- The data a scripted executor response contributes to the yielded
stream: the data list of a well-formed page, nothing otherwise. -/
def dataOf {ε κ α : Type} (r : Except ε (PageJson κ α)) : List α :=
  match r with
  | Except.error _ => []
  | Except.ok j => j.data.getD []

/-- The while loop of Set.iterator, run against a script of executor
responses consumed one per fetch: while the locked-direction cursor on
the current page is present, fetch with size and that cursor, yield
the new page data, and continue from the new page. Returns the fetch
calls made, the values yielded, and how the traversal ended. -/
def iterAux {Q ε κ α : Type} (q : Q) (psize : Option Nat) (dir : Direction) :
    List (Except ε (PageJson κ α)) → Page κ α →
    List (FetchCall Q κ) × List α × Outcome (IterErr ε)
  | [], page =>
    match Page.cursor page dir with
    | none => ([], [], Outcome.done)
    | some c => ([⟨q, psize, some (dir, c)⟩], [], Outcome.scriptEnded)
  | r :: rest, page =>
    match Page.cursor page dir with
    | none => ([], [], Outcome.done)
    | some c =>
      match get_page r with
      | Except.error e => ([⟨q, psize, some (dir, c)⟩], [], Outcome.failed e)
      | Except.ok p =>
        let res := iterAux q psize dir rest p
        (⟨q, psize, some (dir, c)⟩ :: res.1, p.data ++ res.2.1, res.2.2)

/-- Set.iterator against a mocked executor scripted as a list of
responses: the first fetch passes only the size; the first page data
is yielded; the direction is locked to after when the first page after
cursor is present and to before otherwise; then the loop runs. Returns
the fetch calls made in order, the values yielded in order, and how
the traversal ended. -/
def Set.iterator {Q ε κ α : Type} (s : Set Q) (psize : Option Nat)
    (script : List (Except ε (PageJson κ α))) :
    List (FetchCall Q κ) × List α × Outcome (IterErr ε) :=
  match script with
  | [] => ([⟨s.query_json, psize, none⟩], [], Outcome.scriptEnded)
  | r :: rest =>
    match get_page r with
    | Except.error e => ([⟨s.query_json, psize, none⟩], [], Outcome.failed e)
    | Except.ok page =>
      let dir := if page.after.isSome then Direction.after else Direction.before
      let res := iterAux s.query_json psize dir rest page
      (⟨s.query_json, psize, none⟩ :: res.1, page.data ++ res.2.1, res.2.2)

theorem pySplit_ne_nil (sep : Char) (l : List Char) : pySplit sep l ≠ [] := by
  cases l with
  | nil => simp [pySplit]
  | cons c cs =>
    simp only [pySplit]
    split <;> simp

theorem pyJoin_pySplit (sep : Char) (l : List Char) :
    pyJoin sep (pySplit sep l) = l := by
  induction l with
  | nil => rfl
  | cons c cs ih =>
    rcases hr : pySplit sep cs with _ | ⟨h1, t1⟩
    · exact absurd hr (pySplit_ne_nil sep cs)
    · rw [hr] at ih
      by_cases h : c = sep
      · subst h
        simp only [pySplit, if_pos rfl, hr]
        simpa [pyJoin] using ih
      · simp only [pySplit, if_neg h, hr]
        cases t1 with
        | nil => simpa [pyJoin] using congrArg (c :: ·) ih
        | cons t2 ts => simpa [pyJoin] using congrArg (c :: ·) ih

theorem pySplit_of_not_mem (sep : Char) (l : List Char) (h : sep ∉ l) :
    pySplit sep l = [l] := by
  induction l with
  | nil => rfl
  | cons c cs ih =>
    have hc : ¬ c = sep := fun e => h (e ▸ List.mem_cons_self c cs)
    have hcs : sep ∉ cs := fun m => h (List.mem_cons_of_mem _ m)
    simp [pySplit, if_neg hc, ih hcs]

theorem pySplit_append (sep : Char) (a b : List Char) :
    pySplit sep (a ++ sep :: b) = pySplit sep a ++ pySplit sep b := by
  induction a with
  | nil => simp [pySplit]
  | cons c cs ih =>
    by_cases h : c = sep
    · simp [pySplit, if_pos h, ih]
    · rcases hr : pySplit sep cs with _ | ⟨h1, t1⟩
      · exact absurd hr (pySplit_ne_nil sep cs)
      · simp [pySplit, if_neg h, ih, hr]

theorem two_le_length_pySplit (sep : Char) (l : List Char) (h : sep ∈ l) :
    2 ≤ (pySplit sep l).length := by
  induction l with
  | nil => simp at h
  | cons c cs ih =>
    by_cases hc : c = sep
    · rcases hq : pySplit sep cs with _ | ⟨x, xs⟩
      · exact absurd hq (pySplit_ne_nil sep cs)
      · simp [pySplit, if_pos hc, hq]
    · have hcs : sep ∈ cs := by
        rcases List.mem_cons.mp h with h1 | h1
        · exact absurd h1.symm hc
        · exact h1
      rcases hq : pySplit sep cs with _ | ⟨x, xs⟩
      · exact absurd hq (pySplit_ne_nil sep cs)
      · have := ih hcs
        rw [hq] at this
        simp only [pySplit, if_neg hc, hq]
        simpa using this

theorem pyJoin_dropLast_getLastD (sep : Char) :
    ∀ (s : List (List Char)), 2 ≤ s.length →
      pyJoin sep s = pyJoin sep s.dropLast ++ sep :: s.getLastD []
  | [], h => by simp at h
  | [x], h => by simp at h
  | x :: y :: rest, _ => by
    cases rest with
    | nil => simp [pyJoin]
    | cons z rs =>
      have ih := pyJoin_dropLast_getLastD sep (y :: z :: rs) (by simp)
      simp only [pyJoin, List.dropLast_cons₂, List.getLastD_cons] at ih ⊢
      rw [ih]
      simp

/-- C6: for all strings c and i with i containing no slash, the id
part of Ref(c, i) is i; and decomposition splits on the last
separator: Ref("a", "b/c") has class part Ref("a/b") and id part "c". -/
theorem Ref.pair_decomposition :
    (∀ c i : List Char, '/' ∉ i → (Ref.init c (some i)).id = i) ∧
    ((Ref.init "a".toList (some "b/c".toList)).to_class = Ref.init "a/b".toList none ∧
      (Ref.init "a".toList (some "b/c".toList)).id = "c".toList) := by
  refine ⟨fun c i h => ?_, by decide, by decide⟩
  show (pySplit '/' (c ++ '/' :: i)).getLastD [] = i
  rw [pySplit_append, pySplit_of_not_mem '/' i h, List.getLastD_concat]

theorem Ref.pair_decomposition_witness :
    (Ref.init "databases".toList (some "prydain".toList)).id = "prydain".toList :=
  Ref.pair_decomposition.1 "databases".toList "prydain".toList (by decide)

/-- C7: a Ref whose value has no slash degrades gracefully: id returns
the whole value and to_class returns a Ref over the empty string. -/
theorem Ref.single_segment (v : List Char) (h : '/' ∉ v) :
    (Ref.init v none).id = v ∧ (Ref.init v none).to_class = Ref.init [] none := by
  constructor
  · show (pySplit '/' v).getLastD [] = v
    rw [pySplit_of_not_mem '/' v h]
    rfl
  · show (⟨pyJoin '/' ((pySplit '/' v).dropLast)⟩ : Ref) = Ref.init [] none
    rw [pySplit_of_not_mem '/' v h]
    rfl

theorem Ref.single_segment_witness :
    (Ref.init "abc".toList none).id = "abc".toList ∧
      (Ref.init "abc".toList none).to_class = Ref.init [] none :=
  Ref.single_segment "abc".toList (by decide)

/-- C10: for a Ref whose value contains a slash, recombining its
decomposition through the two-argument constructor reconstructs it:
Ref(str(r.to_class()), r.id()) equals r. -/
theorem Ref.recombine (r : Ref) (h : '/' ∈ r.value) :
    Ref.init ((Ref.to_class r).str) (some (Ref.id r)) = r := by
  have h2 := two_le_length_pySplit '/' r.value h
  have h3 := pyJoin_dropLast_getLastD '/' (pySplit '/' r.value) h2
  have h4 := pyJoin_pySplit '/' r.value
  cases r with
  | mk v =>
    simp only [Ref.init, Ref.to_class, Ref.str, Ref.id]
    exact congrArg Ref.mk (by rw [← h3, h4])

theorem Ref.recombine_witness :
    Ref.init ((Ref.to_class ⟨"a/b".toList⟩).str) (some (Ref.id ⟨"a/b".toList⟩)) =
      (⟨"a/b".toList⟩ : Ref) :=
  Ref.recombine ⟨"a/b".toList⟩ (by decide)

/-- C4 counterexample: constructing an Event with the invalid action
"xyz" raises InvalidQuery whose fixed message does not contain the
offending value, so the error does not name it. -/
theorem Event.init_error_not_naming_value :
    Event.init (some (1 : Nat)) (some "xyz".toList) (none : Option Nat) =
      Except.error (PyErr.invalidQuery invalidActionMsg) ∧
    occursIn "xyz".toList invalidActionMsg = false :=
  ⟨rfl, rfl⟩

/-- C4 amended: construction fails with InvalidQuery carrying the
fixed message exactly when the action is outside the tuple
(None, "create", "delete"); on success ts, action and resource are
stored unchanged. The error does not name the offending value. -/
theorem Event.init_validation {τ ρ : Type} (ts : Option τ)
    (a : Option (List Char)) (r : Option ρ) :
    (a ∉ validActions ↔
      Event.init ts a r = Except.error (PyErr.invalidQuery invalidActionMsg))
    ∧ (a ∈ validActions → Event.init ts a r = Except.ok ⟨ts, a, r⟩) := by
  by_cases h : a ∈ validActions
  · refine ⟨⟨fun hn => absurd h hn, fun he => ?_⟩, fun _ => by simp [Event.init, if_pos h]⟩
    simp [Event.init, if_pos h] at he
  · exact ⟨⟨fun _ => by simp [Event.init, if_neg h], fun _ => h⟩, fun hm => absurd hm h⟩

theorem Event.init_validation_witness :
    Event.init (some (1 : Nat)) (some "create".toList) (some (2 : Nat)) =
      Except.ok ⟨some 1, some "create".toList, some 2⟩ ∧
    Event.init (some (1 : Nat)) (some "update".toList) (none : Option Nat) =
      Except.error (PyErr.invalidQuery invalidActionMsg) :=
  ⟨(Event.init_validation (some (1 : Nat)) (some "create".toList) (some (2 : Nat))).2
      (by decide),
    (Event.init_validation (some (1 : Nat)) (some "update".toList)
        (none : Option Nat)).1.mp (by decide)⟩

/-- C5 counterexample: the Event with ts 1 and unset action and
resource is validly constructed, its serialization omits the unset
keys, and deserializing that mapping raises KeyError on the absent
action key instead of yielding the Event back. -/
theorem Event.roundtrip_counterexample :
    Event.init (some (1 : Nat)) none (none : Option Nat) =
      Except.ok ⟨some 1, none, none⟩ ∧
    Event.from_json (Event.to_fauna_json (⟨some 1, none, none⟩ : Event Nat Nat)) =
      Except.error (PyErr.keyError "action".toList) :=
  ⟨rfl, rfl⟩

/-- C5 amended: the serialize-deserialize round trip holds for every
validly constructed Event whose ts, action and resource are all set;
the serialized mapping uses only the keys ts, action and resource and
omits exactly the unset ones. When a field is unset, from_json raises
KeyError on the first absent key instead of returning an Event. -/
theorem Event.roundtrip_all_fields {τ ρ : Type} :
    (∀ (t : τ) (a : List Char) (r : ρ) (e : Event τ ρ),
        Event.init (some t) (some a) (some r) = Except.ok e →
        Event.from_json (Event.to_fauna_json e) = Except.ok e)
    ∧ ∀ e : Event τ ρ, Event.to_fauna_json e = ⟨e.ts, e.action, e.resource⟩ := by
  refine ⟨fun t a r e h => ?_, fun e => rfl⟩
  by_cases hm : (some a : Option (List Char)) ∈ validActions
  · have he : e = ⟨some t, some a, some r⟩ := by
      simp [Event.init, if_pos hm] at h
      exact h.symm
    subst he
    simp [Event.to_fauna_json, Event.from_json, Event.init, if_pos hm]
  · simp [Event.init, if_neg hm] at h

theorem Event.roundtrip_all_fields_witness :
    Event.from_json (Event.to_fauna_json
        (⟨some 1, some "create".toList, some 2⟩ : Event Nat Nat)) =
      Except.ok ⟨some 1, some "create".toList, some 2⟩ :=
  Event.roundtrip_all_fields.1 1 "create".toList 2
    ⟨some 1, some "create".toList, some 2⟩ rfl

/-- C8: Page.from_json fails exactly when the mapping lacks the
required data key, raising KeyError for it and constructing no page;
with the data key present it returns the Page with that data and the
optional before and after values. -/
theorem Page.from_json_spec {κ α : Type} (j : PageJson κ α) :
    (Page.from_json j = Except.error (PyErr.keyError "data".toList) ↔ j.data = none)
    ∧ ∀ d, j.data = some d → Page.from_json j = Except.ok ⟨d, j.before, j.after⟩ := by
  constructor
  · cases hd : j.data with
    | none => simp [Page.from_json, hd]
    | some d => simp [Page.from_json, hd]
  · intro d hd
    simp [Page.from_json, hd]

theorem Page.from_json_spec_witness :
    Page.from_json (⟨none, none, none⟩ : PageJson Nat Nat) =
      Except.error (PyErr.keyError "data".toList) ∧
    Page.from_json (⟨some [5], some 1, none⟩ : PageJson Nat Nat) =
      Except.ok ⟨[5], some 1, none⟩ :=
  ⟨(Page.from_json_spec (⟨none, none, none⟩ : PageJson Nat Nat)).1.mpr rfl,
    (Page.from_json_spec (⟨some [5], some 1, none⟩ : PageJson Nat Nat)).2 [5] rfl⟩

/-- C9: map_data returns a new Page with the cursors unchanged and the
data mapped element-wise, preserving order and length; the original is
untouched, the model being pure. -/
theorem Page.map_data_spec {κ α β : Type} (p : Page κ α) (f : α → β) :
    (p.map_data f).before = p.before ∧ (p.map_data f).after = p.after ∧
    (p.map_data f).data.length = p.data.length ∧
    ∀ i, (p.map_data f).data.get? i = (p.data.get? i).map f := by
  refine ⟨rfl, rfl, by simp [Page.map_data], fun i => ?_⟩
  simp [Page.map_data]

theorem get_page_execFail {ε κ α : Type} (r : Except ε (PageJson κ α)) (e : ε)
    (h : get_page r = Except.error (IterErr.execFail e)) : r = Except.error e := by
  cases r with
  | error e2 =>
    simp [get_page] at h
    rw [h]
  | ok j =>
    cases hd : j.data with
    | none => simp [get_page, Page.from_json, hd] at h
    | some d => simp [get_page, Page.from_json, hd] at h

theorem dataOf_of_get_page_ok {ε κ α : Type} (r : Except ε (PageJson κ α))
    (p : Page κ α) (h : get_page r = Except.ok p) : dataOf r = p.data := by
  cases r with
  | error e => simp [get_page] at h
  | ok j =>
    cases hd : j.data with
    | none => simp [get_page, Page.from_json, hd] at h
    | some d =>
      simp [get_page, Page.from_json, hd] at h
      simp [dataOf, hd, ← h]

theorem iterAux_cursor_dir {Q ε κ α : Type} (q : Q) (psize : Option Nat)
    (dir : Direction) :
    ∀ (script : List (Except ε (PageJson κ α))) (page : Page κ α)
      (a : FetchCall Q κ), a ∈ (iterAux q psize dir script page).1 →
      ∃ c, a.cursor = some (dir, c) := by
  intro script
  induction script with
  | nil =>
    intro page a ha
    rcases hc : Page.cursor page dir with _ | c
    · simp [iterAux, hc] at ha
    · simp [iterAux, hc] at ha
      exact ⟨c, by rw [ha]⟩
  | cons r rest ih =>
    intro page a ha
    rcases hc : Page.cursor page dir with _ | c
    · simp [iterAux, hc] at ha
    · rcases hg : get_page r with f | p
      · simp [iterAux, hc, hg] at ha
        exact ⟨c, by rw [ha]⟩
      · simp [iterAux, hc, hg] at ha
        rcases ha with ha | ha
        · exact ⟨c, by rw [ha]⟩
        · exact ih p a ha

theorem iterAux_exec_fail {Q ε κ α : Type} (q : Q) (psize : Option Nat)
    (dir : Direction) :
    ∀ (script : List (Except ε (PageJson κ α))) (page : Page κ α) (e : ε),
      (iterAux q psize dir script page).2.2 = Outcome.failed (IterErr.execFail e) →
      ∃ n, (iterAux q psize dir script page).1.length = n + 1 ∧
        script.get? n = some (Except.error e) ∧
        (iterAux q psize dir script page).2.1 = ((script.take n).map dataOf).flatten := by
  intro script
  induction script with
  | nil =>
    intro page e h
    rcases hc : Page.cursor page dir with _ | c
    · simp [iterAux, hc] at h
    · simp [iterAux, hc] at h
  | cons r rest ih =>
    intro page e h
    rcases hc : Page.cursor page dir with _ | c
    · simp [iterAux, hc] at h
    · rcases hg : get_page r with f | p
      · simp [iterAux, hc, hg] at h
        subst h
        refine ⟨0, by simp [iterAux, hc, hg], ?_, by simp [iterAux, hc, hg]⟩
        simpa using congrArg some (get_page_execFail r e hg)
      · simp only [iterAux, hc, hg] at h ⊢
        obtain ⟨n, h1, h2, h3⟩ := ih p e h
        refine ⟨n + 1, by simp [h1], by simpa using h2, ?_⟩
        simp [h3, dataOf_of_get_page_ok r p hg]

/-- C1: over a mocked executor scripted to return a page with data d0
and after cursor c1, then data d1 and after cursor c2, then data d2
and no after cursor, the traversal yields d0 ++ d1 ++ d2 in order and
performs exactly three fetches, passing the page size each time and
the cursors none, c1 and c2 respectively. -/
theorem Set.iterator_three_pages {Q ε κ α : Type} (s : Set Q) (psize : Option Nat)
    (d0 d1 d2 : List α) (c1 c2 : κ) (b0 b1 b2 : Option κ) :
    Set.iterator s psize
      ([Except.ok ⟨some d0, b0, some c1⟩, Except.ok ⟨some d1, b1, some c2⟩,
        Except.ok ⟨some d2, b2, none⟩] : List (Except ε (PageJson κ α))) =
      ([⟨s.query_json, psize, none⟩, ⟨s.query_json, psize, some (Direction.after, c1)⟩,
        ⟨s.query_json, psize, some (Direction.after, c2)⟩],
        d0 ++ d1 ++ d2, Outcome.done) := by
  simp [Set.iterator, iterAux, get_page, Page.from_json, Page.cursor]

/-- C2: the traversal direction is fixed from the first page alone,
after when its after cursor is present and before otherwise, and every
fetch after the first passes a cursor tagged with that direction, for
an arbitrary script of later pages. -/
theorem Set.iterator_direction_lock {Q ε κ α : Type} (s : Set Q) (psize : Option Nat)
    (r0 : Except ε (PageJson κ α)) (rest : List (Except ε (PageJson κ α)))
    (p0 : Page κ α) (h : get_page r0 = Except.ok p0) (a : FetchCall Q κ)
    (ha : a ∈ (Set.iterator s psize (r0 :: rest)).1.tail) :
    ∃ c, a.cursor =
      some ((if p0.after.isSome then Direction.after else Direction.before), c) := by
  simp only [Set.iterator, h, List.tail_cons] at ha
  exact iterAux_cursor_dir s.query_json psize _ rest p0 a ha

theorem Set.iterator_direction_lock_witness :
    ∃ c, (⟨(), none, some (Direction.before, 2)⟩ : FetchCall Unit Nat).cursor =
      some (Direction.before, c) :=
  Set.iterator_direction_lock ⟨()⟩ none
    (Except.ok ⟨some [10], some 1, none⟩ : Except Unit (PageJson Nat Nat))
    [Except.ok ⟨some [20], some 2, some 9⟩, Except.ok ⟨some [30], none, some 8⟩]
    ⟨[10], some 1, none⟩ rfl ⟨(), none, some (Direction.before, 2)⟩ (by decide)

/-- C3: whenever a traversal ends with a propagated executor failure,
there is an n such that exactly n+1 fetches were made, the last
scripted response consumed is the failing one, and the values yielded
are exactly the concatenated data of the n pages obtained before the
failure; no fetch follows the failed one. -/
theorem Set.iterator_fail_propagation {Q ε κ α : Type} (s : Set Q)
    (psize : Option Nat) (script : List (Except ε (PageJson κ α))) (e : ε)
    (h : (Set.iterator s psize script).2.2 = Outcome.failed (IterErr.execFail e)) :
    ∃ n, (Set.iterator s psize script).1.length = n + 1 ∧
      script.get? n = some (Except.error e) ∧
      (Set.iterator s psize script).2.1 = ((script.take n).map dataOf).flatten := by
  cases script with
  | nil => simp [Set.iterator] at h
  | cons r rest =>
    rcases hg : get_page r with f | p
    · simp [Set.iterator, hg] at h
      subst h
      refine ⟨0, by simp [Set.iterator, hg], ?_, by simp [Set.iterator, hg]⟩
      simpa using congrArg some (get_page_execFail r e hg)
    · simp only [Set.iterator, hg] at h ⊢
      obtain ⟨n, h1, h2, h3⟩ := iterAux_exec_fail s.query_json psize _ rest p e h
      refine ⟨n + 1, by simp [h1], by simpa using h2, ?_⟩
      simp [h3, dataOf_of_get_page_ok r p hg]

theorem Set.iterator_fail_propagation_witness :
    ∃ n, (Set.iterator (⟨()⟩ : Set Unit) none
        ([Except.ok ⟨some [10, 20], none, some 5⟩, Except.error (),
          Except.ok ⟨some [30], none, none⟩] :
          List (Except Unit (PageJson Nat Nat)))).1.length = n + 1 ∧
      ([Except.ok ⟨some [10, 20], none, some 5⟩, Except.error (),
        Except.ok ⟨some [30], none, none⟩] :
        List (Except Unit (PageJson Nat Nat))).get? n =
          some (Except.error ()) ∧
      (Set.iterator (⟨()⟩ : Set Unit) none
        ([Except.ok ⟨some [10, 20], none, some 5⟩, Except.error (),
          Except.ok ⟨some [30], none, none⟩] :
          List (Except Unit (PageJson Nat Nat)))).2.1 =
        ((([Except.ok ⟨some [10, 20], none, some 5⟩, Except.error (),
          Except.ok ⟨some [30], none, none⟩] :
          List (Except Unit (PageJson Nat Nat))).take n).map dataOf).flatten :=
  Set.iterator_fail_propagation ⟨()⟩ none
    ([Except.ok ⟨some [10, 20], none, some 5⟩, Except.error (),
      Except.ok ⟨some [30], none, none⟩] :
      List (Except Unit (PageJson Nat Nat))) () rfl

end FaunaDB
